import Mathlib

/-!
Shallow embedding of the flask-script command-dispatch layer
(`src/flask_script/__init__.py`, `src/flask_script/commands.py`, and the
older revision `src/flaskext/script.py`) together with proofs about its
registration, signature-to-flags derivation, argument parsing and dispatch
behaviour.
-/

set_option autoImplicit false

namespace FlaskScript

/-- Python runtime values as far as the dispatch layer inspects them:
booleans (for `isinstance(default, bool)`), strings, integers, `None`,
and lists of command-line tokens (the catch-all sequence). -/
inductive PyVal where
  | none
  | bool (b : Bool)
  | int (n : Int)
  | str (s : String)
  | strlist (elems : List String)
  deriving DecidableEq, Repr

/-- Models `isinstance(v, bool)` on a default value. -/
def PyVal.isBool : PyVal → Bool
  | .bool _ => true
  | _ => false

/-- Embedding of the `Option` value object of `flask_script.commands`
(named `Opt` here because `Option` is taken in Lean): it stores the
positional/flag name strings (`self.args`) and the keyword arguments the
source passes to `argparse.add_argument` (`self.kwargs`), each keyword
present only when the source supplies it. -/
structure Opt where
  args : List String
  action : Option String
  dest : Option String
  argType : Option String
  required : Option Bool
  default : Option PyVal
  deriving DecidableEq, Repr

/-- First-match association-list lookup, modelling a Python dict read. -/
def lookupDict {β : Type} (k : String) : List (String × β) → Option β
  | [] => Option.none
  | (k0, v) :: rest => if k0 = k then some v else lookupDict k rest

/-- The defaults dict built by `Manager.command`:
`kwargs = dict(izip(*[reversed(l) for l in (args, defaults)]))`, i.e. the
trailing parameters are paired with the default values. -/
def commandKwargs (args : List String) (defaults : List PyVal) :
    List (String × PyVal) :=
  args.reverse.zip defaults.reverse

/-- The option `Manager.command` builds for a parameter `arg` whose default
value `d` was found in the defaults dict: with a boolean default it is
`Option('-a', '--arg', action="store_true", dest=arg, required=False,
default=d)`, otherwise `Option('-a', '--arg', dest=arg, type=text_type,
required=False, default=d)`. -/
def deriveDefaulted (arg : String) (d : PyVal) : Opt :=
  if d.isBool then
    { args := ["-" ++ arg.take 1, "--" ++ arg]
      action := some "store_true"
      dest := some arg
      argType := Option.none
      required := some false
      default := some d }
  else
    { args := ["-" ++ arg.take 1, "--" ++ arg]
      action := Option.none
      dest := some arg
      argType := some "text_type"
      required := some false
      default := some d }

/-- The option `Manager.command` builds for a parameter without a default:
`Option(arg, type=text_type)`, a bare positional. -/
def derivePositional (arg : String) : Opt :=
  { args := [arg]
    action := Option.none
    dest := Option.none
    argType := some "text_type"
    required := Option.none
    default := Option.none }

/-- The option built by one iteration of the `for arg in args` loop of
`Manager.command` (src/flask_script/__init__.py lines 256-278). -/
def deriveOption (kwargs : List (String × PyVal)) (arg : String) : Opt :=
  match lookupDict arg kwargs with
  | some d => deriveDefaulted arg d
  | Option.none => derivePositional arg

/-- The full option list `Manager.command` derives from a function whose
`inspect.getargspec` yields parameter names `args` and trailing default
values `defaults`. -/
def managerCommandOptions (args : List String) (defaults : List PyVal) :
    List Opt :=
  args.map (deriveOption (commandKwargs args defaults))

/-- Pointwise update of a binding whose key is `k`. -/
def replaceKey {β : Type} (k : String) (v : β) (kv : String × β) :
    String × β :=
  if kv.1 = k then (k, v) else kv

/-- Insert-or-update on an association list, modelling a Python dict
write: an existing key keeps its position, a new key is appended. -/
def dictSet {β : Type} (l : List (String × β)) (k : String) (v : β) :
    List (String × β) :=
  if (lookupDict k l).isSome then l.map (replaceKey k v)
  else l ++ [(k, v)]

/-- The argparse action classes the dispatch layer distinguishes.  The
first seven are exactly the classes of the module-level `safe_actions`
tuple (src/flask_script/__init__.py lines 21-27); `help` is the
auto-added help action and `subparsers` the `_SubParsersAction`, neither
of which is in `safe_actions`. -/
inductive ActKind where
  | store
  | storeConst
  | storeTrue
  | storeFalse
  | append
  | appendConst
  | count
  | help
  | subparsers
  deriving DecidableEq, Repr

/-- Membership in the `safe_actions` tuple. -/
def safeAction (k : ActKind) : Bool :=
  match k with
  | .store | .storeConst | .storeTrue | .storeFalse
  | .append | .appendConst | .count => true
  | _ => false

/-- An argument registered on an `argparse.ArgumentParser`: its option
strings, destination attribute, action class, constant and default. -/
structure ArgAction where
  optionStrings : List String
  dest : String
  kind : ActKind
  const : PyVal
  default : PyVal
  deriving DecidableEq, Repr

/-- Whether a token begins with a dash (argparse's test for
option-looking tokens). -/
def dashPrefixed (s : String) : Bool :=
  match s.data with
  | [] => false
  | c :: _ => c = '-'

/-- Whether `o.args` declares a positional (no leading dash). -/
def Opt.isPositional (o : Opt) : Bool :=
  match o.args with
  | s :: _ => !(dashPrefixed s)
  | [] => true

/-- The argparse action that `add_argument(*option.args, **option.kwargs)`
registers for an embedded `Opt`. -/
def Opt.toAction (o : Opt) : ArgAction :=
  { optionStrings := if o.isPositional then [] else o.args
    dest :=
      match o.dest with
      | some d => d
      | Option.none =>
        match o.args with
        | s :: _ => s.dropWhile (fun c => c = '-')
        | [] => ""
    kind :=
      match o.action with
      | some "store_true" => ActKind.storeTrue
      | some "store_false" => ActKind.storeFalse
      | _ => ActKind.store
    const := PyVal.none
    default := o.default.getD PyVal.none }

/-- Whether an action class consumes a following value token. -/
def takesValue (k : ActKind) : Bool :=
  match k with
  | .store | .append => true
  | _ => false

/-- The first registered action whose option strings contain the token. -/
def findAction (actions : List ArgAction) (tok : String) : Option ArgAction :=
  actions.find? (fun a => a.optionStrings.contains tok)

/-- One action application updating the parser namespace. -/
def applyAction (ns : List (String × PyVal)) (a : ArgAction)
    (v : Option String) : List (String × PyVal) :=
  match a.kind with
  | .store => dictSet ns a.dest (PyVal.str (v.getD ""))
  | .storeConst => dictSet ns a.dest a.const
  | .storeTrue => dictSet ns a.dest (PyVal.bool true)
  | .storeFalse => dictSet ns a.dest (PyVal.bool false)
  | .append =>
    dictSet ns a.dest
      (match lookupDict a.dest ns with
       | some (PyVal.strlist l) => PyVal.strlist (l ++ [v.getD ""])
       | _ => PyVal.strlist [v.getD ""])
  | .appendConst => dictSet ns a.dest a.const
  | .count =>
    dictSet ns a.dest
      (match lookupDict a.dest ns with
       | some (PyVal.int n) => PyVal.int (n + 1)
       | _ => PyVal.int 1)
  | _ => ns

/-- The namespace before parsing: every action's default, except the
help and subparsers actions whose defaults argparse suppresses. -/
def initNamespace (actions : List ArgAction) : List (String × PyVal) :=
  (actions.filter
    (fun a => !(a.kind == ActKind.help) && !(a.kind == ActKind.subparsers))).map
    (fun a => (a.dest, a.default))

/-- Parse failures surfaced by the argument parser (argparse exits with
code 2 on these). -/
inductive ParseErr where
  | expectedOneArgument (dest : String)
  | unrecognizedArguments (extras : List String)
  deriving DecidableEq, Repr

/-- Model of `ArgumentParser.parse_known_args` restricted to optional
arguments: a token matching a registered option string is consumed
(together with its value token for value-taking actions — a following
token starting with a dash is not accepted as a value, as in argparse);
every other token is passed through, in order, to the list of remaining
arguments.  A value-taking option with no usable value is a parse
error. -/
def parseKnownArgs (actions : List ArgAction) :
    List String → List (String × PyVal) →
    Except ParseErr (List (String × PyVal) × List String)
  | [], ns => .ok (ns, [])
  | [tok], ns =>
    match findAction actions tok with
    | some a =>
      if takesValue a.kind then .error (.expectedOneArgument a.dest)
      else .ok (applyAction ns a Option.none, [])
    | Option.none => .ok (ns, [tok])
  | tok :: v :: rest1, ns =>
    match findAction actions tok with
    | some a =>
      if takesValue a.kind then
        if dashPrefixed v then .error (.expectedOneArgument a.dest)
        else parseKnownArgs actions rest1 (applyAction ns a (some v))
      else parseKnownArgs actions (v :: rest1) (applyAction ns a Option.none)
    | Option.none =>
      (parseKnownArgs actions (v :: rest1) ns).map
        (fun p => (p.1, tok :: p.2))

/-- The destinations the new-revision `Manager.handle` treats as safe
application-factory keys:
`[action.dest for action in app_parser._actions if action.__class__ in
safe_actions]`. -/
def appConfigKeys (managerActions : List ArgAction) : List String :=
  (managerActions.filter (fun a => safeAction a.kind)).map (fun a => a.dest)

/-- The outcome of a successful dispatch through the new-revision
`Manager.handle`: the keyword arguments given to `create_app`, the
keyword arguments given to the command handle, and its positional
arguments (the single captured token list, for capture-all commands). -/
structure Dispatch where
  appConfig : List (String × PyVal)
  bodyKwargs : List (String × PyVal)
  positionalArgs : List (List String)
  deriving DecidableEq, Repr

/-- Embedding of the new-revision `Manager.handle`
(src/flask_script/__init__.py lines 340-384), after the command has been
resolved to a bound handle: parse the argument vector leniently against
the manager's and the command's registered actions, split the parsed
namespace into safe application-config keys (passed to `create_app`) and
the rest (passed to the command), and either hand all remaining tokens to
a capture-all command as one positional list or fail on any remaining
token otherwise (the code re-runs `app_parser.parse_args(args)`, which
exits with a parse error). -/
def managerHandle (managerActions commandActions : List ArgAction)
    (captureAll : Bool) (args : List String) : Except ParseErr Dispatch :=
  let allActions := managerActions ++ commandActions
  match parseKnownArgs allActions args (initNamespace allActions) with
  | .error e => .error e
  | .ok (ns, remainingArgs) =>
    let keys := appConfigKeys managerActions
    let appConfig := ns.filter (fun kv => keys.contains kv.1)
    let kwargs := ns.filter (fun kv => !(keys.contains kv.1))
    if captureAll then
      .ok { appConfig := appConfig, bodyKwargs := kwargs,
            positionalArgs := [remainingArgs] }
    else if remainingArgs.isEmpty then
      .ok { appConfig := appConfig, bodyKwargs := kwargs,
            positionalArgs := [] }
    else
      .error (.unrecognizedArguments remainingArgs)

/-- Syntactic well-formedness of an argument vector with respect to the
registered actions: every occurrence of a declared value-taking option is
immediately followed by a usable (non-dash) value token.  This is exactly
the condition under which `parseKnownArgs` cannot fail. -/
def flagsWellFormed (actions : List ArgAction) : List String → Bool
  | [] => true
  | [tok] =>
    match findAction actions tok with
    | some a => !takesValue a.kind
    | Option.none => true
  | tok :: v :: rest1 =>
    match findAction actions tok with
    | some a =>
      if takesValue a.kind then
        !(dashPrefixed v) && flagsWellFormed actions rest1
      else flagsWellFormed actions (v :: rest1)
    | Option.none => flagsWellFormed actions (v :: rest1)

/-- An entry of a Manager's command registry (`self._commands`): either a
registered command, identified opaquely by a number, or a nested
sub-Manager carrying its own registry. -/
inductive CmdEntry where
  | cmd (id : Nat)
  | mgr (registry : List (String × CmdEntry))

/-- Embedding of the namespace-handling part of `Manager.add_command`
(src/flask_script/__init__.py lines 195-236), after the command's name
and namespace have been resolved: without a namespace the command is
stored directly; with a namespace, a fresh sub-Manager is first created
under the namespace name when none exists, and the command is then
stored inside the namespace entry's own registry.  Python's
`self._commands[namespace]._commands[name] = command` raises
`AttributeError` when the entry under the namespace name is not a
Manager; that failure is modelled as `Option.none`. -/
def addCommand (reg : List (String × CmdEntry)) (name : String)
    (c : CmdEntry) : Option String → Option (List (String × CmdEntry))
  | Option.none => some (dictSet reg name c)
  | some nsp =>
    let reg1 := if (lookupDict nsp reg).isSome then reg
      else dictSet reg nsp (CmdEntry.mgr [])
    match lookupDict nsp reg1 with
    | some (CmdEntry.mgr sub) =>
      some (dictSet reg1 nsp (CmdEntry.mgr (dictSet sub name c)))
    | _ => Option.none

/-- An abstract Flask application: its identity and the keyword
arguments it was built from. -/
structure App where
  tag : Nat
  cfg : List (String × PyVal)
  deriving DecidableEq, Repr

/-- What `Manager.__init__` received as `app`: a Flask instance or a
factory callable. -/
inductive AppSource where
  | flaskInstance (a : App)
  | factory (f : List (String × PyVal) → App)

/-- A Manager in the sub-manager tree: `base` is a Manager whose
`parent` is `None`, `sub` one whose `parent` is set.  Each carries its
own `_options` list and `app` attribute. -/
inductive Mgr where
  | base (options : List Opt) (app : AppSource)
  | sub (options : List Opt) (app : AppSource) (parent : Mgr)

/-- Field access `self._options`. -/
def Mgr.optionsField : Mgr → List Opt
  | .base o _ => o
  | .sub o _ _ => o

/-- Embedding of `Manager.get_options` (src/flask_script/__init__.py
lines 189-193): with a parent it returns `self.parent._options` — the
immediate parent's field, not a recursive call — otherwise its own
`_options`. -/
def Mgr.get_options : Mgr → List Opt
  | .base o _ => o
  | .sub _ _ p => p.optionsField

/-- Embedding of `Manager.create_app` (lines 131-139): a sub-Manager
defers to its parent recursively; a parentless Manager returns its Flask
instance unchanged or calls its factory with the keyword arguments. -/
def Mgr.create_app : Mgr → List (String × PyVal) → App
  | .sub _ _ p, kwargs => p.create_app kwargs
  | .base _ (AppSource.flaskInstance a), _ => a
  | .base _ (AppSource.factory f), kwargs => f kwargs

/-- The root of the sub-manager chain. -/
def Mgr.root : Mgr → Mgr
  | .base o a => .base o a
  | .sub _ _ p => p.root

/-- Python exceptions as the dispatch layer distinguishes them:
`SystemExit` carrying an exit code, or any other exception identified by
its type name. -/
inductive PyExc where
  | systemExit (code : Int)
  | other (name : String)
  deriving DecidableEq, Repr

/-- The ambient request-context stack (`flask._request_ctx_stack`). -/
structure World where
  ctxStack : List Nat
  deriving DecidableEq, Repr

/-- Embedding of `Command.handle` (src/flask_script/commands.py lines
139-145): the body runs inside `with app.test_request_context()` — the
context is pushed before the body is called and popped again on every
exit path, normal or exceptional, while the body's outcome (return
value or raised exception) is passed through unchanged; the method has
no `except` clause. -/
def commandHandle (w : World) (ctx : Nat) (body : Except PyExc PyVal) :
    Except PyExc PyVal × World :=
  let pushed : World := { ctxStack := ctx :: w.ctxStack }
  let result := body
  (result, { ctxStack := pushed.ctxStack.tail })

/-- The tail of the new-revision `Manager.handle`: `return handle(app,
*positional_args, **kwargs)` — the bound command handle's outcome is
returned as-is, with no exception handling of its own. -/
def managerHandleOutcome (w : World) (ctx : Nat)
    (body : Except PyExc PyVal) : Except PyExc PyVal × World :=
  commandHandle w ctx body

/-- The exit code `sys.exit(result or 0)` produces for a command-body
return value. -/
def pyExitCode : PyVal → Int
  | PyVal.none => 0
  | PyVal.int n => n
  | PyVal.bool b => if b then 1 else 0
  | PyVal.str s => if s.isEmpty then 0 else 1
  | PyVal.strlist l => if l.isEmpty then 0 else 1

/-- Embedding of `Manager.run` (src/flask_script/__init__.py lines
404-409): the dispatch result is computed with only `SystemExit`
caught (its code becoming the result), any other exception propagates
to the caller, and on the normal path the process exits with
`result or 0`. -/
def managerRun (w : World) (ctx : Nat) (body : Except PyExc PyVal) :
    Except PyExc Int × World :=
  let rw1 := managerHandleOutcome w ctx body
  match rw1.1 with
  | .error (PyExc.systemExit c) => (.ok c, rw1.2)
  | .error e => (.error e, rw1.2)
  | .ok v => (.ok (pyExitCode v), rw1.2)

/-- The class-level state of the `Command` base class:
`option_list = []` (src/flask_script/commands.py line 95) is a class
attribute, a single list object owned by the class. -/
structure CommandClass where
  option_list : List Opt
  deriving DecidableEq, Repr

/-- A `Command` instance as Python attribute lookup sees it: it carries
its own `option_list` only when one was assigned on the instance. -/
structure CommandObj where
  ownOptions : Option (List Opt)
  deriving DecidableEq, Repr

/-- A freshly constructed bare `Command()`: no instance attribute. -/
def CommandObj.new : CommandObj := { ownOptions := Option.none }

/-- Python attribute lookup for `self.option_list`: the instance
attribute when present, the class attribute otherwise. -/
def CommandObj.readOptionList (c : CommandObj) (cls : CommandClass) :
    List Opt :=
  match c.ownOptions with
  | some l => l
  | Option.none => cls.option_list

/-- `Command.get_options` returns `self.option_list`. -/
def CommandObj.get_options (c : CommandObj) (cls : CommandClass) :
    List Opt :=
  c.readOptionList cls

/-- `Command.add_option` executes `self.option_list.append(option)`: the
attribute read resolves to the class-level list for an instance without
its own attribute, so the append mutates the shared class attribute. -/
def CommandObj.add_option (c : CommandObj) (cls : CommandClass)
    (o : Opt) : CommandObj × CommandClass :=
  match c.ownOptions with
  | some l => ({ ownOptions := some (l ++ [o]) }, cls)
  | Option.none => (c, { option_list := cls.option_list ++ [o] })

/-- A concrete safe manager-level option, `-c`/`--config`, as registered
by `manager.add_option("-c", "--config", dest="config")`. -/
def configAct : ArgAction :=
  { optionStrings := ["-c", "--config"], dest := "config",
    kind := ActKind.store, const := PyVal.none, default := PyVal.none }

/-- A concrete command-level option, `-n`/`--name`. -/
def nameAct : ArgAction :=
  { optionStrings := ["-n", "--name"], dest := "name",
    kind := ActKind.store, const := PyVal.none,
    default := PyVal.str "fred" }

/-- A concrete toggle option, `--foo`, as declared on the capture-all
command of the test suite. -/
def fooAct : ArgAction :=
  { optionStrings := ["--foo"], dest := "foo",
    kind := ActKind.storeTrue, const := PyVal.none,
    default := PyVal.bool false }

/-- The value bound to a destination after parsing an argument vector
against the given actions (with defaults seeded), when parsing
succeeds. -/
def parsedDest (actions : List ArgAction) (args : List String)
    (dest : String) : Option PyVal :=
  match parseKnownArgs actions args (initNamespace actions) with
  | .ok (ns, _) => lookupDict dest ns
  | .error _ => Option.none

/-- On a well-formed argument vector, lenient parsing succeeds, the
remaining tokens are a subsequence of the input (verbatim, in original
order), and every flag-like token that matches no registered option
string ends up among the remaining tokens. -/
theorem parseKnownArgs_wf (actions : List ArgAction) :
    ∀ (args : List String) (ns : List (String × PyVal)),
    flagsWellFormed actions args = true →
    ∃ ns1 extras,
      parseKnownArgs actions args ns = .ok (ns1, extras) ∧
      extras.Sublist args ∧
      ∀ t ∈ args, dashPrefixed t = true →
        findAction actions t = Option.none → t ∈ extras
  | [], ns, _ => ⟨ns, [], rfl, List.nil_sublist _, by simp⟩
  | [tok], ns, hwf => by
    unfold flagsWellFormed at hwf
    unfold parseKnownArgs
    match hfind : findAction actions tok with
    | some a =>
      rw [hfind] at hwf
      dsimp only at hwf
      have htv : takesValue a.kind = false := by
        cases h : takesValue a.kind
        · rfl
        · rw [h] at hwf
          simp at hwf
      dsimp only
      simp only [htv, Bool.false_eq_true, if_false]
      refine ⟨applyAction ns a Option.none, [], rfl, List.nil_sublist _, ?_⟩
      intro t ht _ hnone
      rcases ht with _ | ⟨_, ht⟩
      · rw [hfind] at hnone
        exact absurd hnone (by simp)
      · cases ht
    | Option.none =>
      dsimp only
      refine ⟨ns, [tok], rfl, List.Sublist.refl _, ?_⟩
      intro t ht _ _
      exact ht
  | tok :: v :: rest1, ns, hwf => by
    unfold flagsWellFormed at hwf
    unfold parseKnownArgs
    match hfind : findAction actions tok with
    | some a =>
      rw [hfind] at hwf
      dsimp only at hwf
      dsimp only
      by_cases htv : takesValue a.kind = true
      · rw [if_pos htv]
        rw [if_pos htv] at hwf
        simp only [Bool.and_eq_true, Bool.not_eq_true'] at hwf
        obtain ⟨hv, hwf1⟩ := hwf
        rw [hv]
        simp only [Bool.false_eq_true, if_false]
        obtain ⟨ns1, extras, hok, hsub, hmem⟩ :=
          parseKnownArgs_wf actions rest1 (applyAction ns a (some v)) hwf1
        refine ⟨ns1, extras, hok, (hsub.cons v).cons tok, ?_⟩
        intro t ht hdash hnone
        rcases ht with _ | ⟨_, ht⟩
        · rw [hfind] at hnone
          exact absurd hnone (by simp)
        · rcases ht with _ | ⟨_, ht⟩
          · rw [hdash] at hv
            simp at hv
          · exact hmem t ht hdash hnone
      · rw [if_neg htv]
        rw [if_neg htv] at hwf
        obtain ⟨ns1, extras, hok, hsub, hmem⟩ :=
          parseKnownArgs_wf actions (v :: rest1)
            (applyAction ns a Option.none) hwf
        refine ⟨ns1, extras, hok, hsub.cons tok, ?_⟩
        intro t ht hdash hnone
        rcases ht with _ | ⟨_, ht⟩
        · rw [hfind] at hnone
          exact absurd hnone (by simp)
        · exact hmem t ht hdash hnone
    | Option.none =>
      rw [hfind] at hwf
      dsimp only at hwf
      dsimp only
      obtain ⟨ns1, extras, hok, hsub, hmem⟩ :=
        parseKnownArgs_wf actions (v :: rest1) ns hwf
      rw [hok]
      refine ⟨ns1, tok :: extras, rfl, hsub.cons₂ tok, ?_⟩
      intro t ht hdash hnone
      rcases ht with _ | ⟨_, ht⟩
      · exact List.mem_cons_self _ _
      · exact List.mem_cons_of_mem _ (hmem t ht hdash hnone)

theorem lookupDict_append {β : Type} (k : String) (l1 l2 : List (String × β)) :
    lookupDict k (l1 ++ l2) =
      match lookupDict k l1 with
      | some v => some v
      | Option.none => lookupDict k l2 := by
  induction l1 with
  | nil => simp [lookupDict]
  | cons p rest ih =>
    obtain ⟨k0, v⟩ := p
    by_cases h : k0 = k <;> simp [lookupDict, h, ih]

theorem lookupDict_eq_none {β : Type} (k : String) (l : List (String × β))
    (h : ∀ p ∈ l, p.1 ≠ k) : lookupDict k l = Option.none := by
  induction l with
  | nil => rfl
  | cons p rest ih =>
    obtain ⟨k0, v⟩ := p
    have hk : k0 ≠ k := h (k0, v) (List.mem_cons_self _ _)
    simp only [lookupDict, if_neg hk]
    exact ih fun p hp => h p (List.mem_cons_of_mem _ hp)

/-- Looking up a key that is paired with `d` in the zip of two equally
long lists with distinct keys retrieves `d`, also through the
reversed-zip dict `commandKwargs` builds. -/
theorem lookupDict_revzip_mem (ys : List String) (ds : List PyVal)
    (hnd : ys.Nodup) (hlen : ys.length = ds.length)
    (y : String) (d : PyVal) (hmem : (y, d) ∈ ys.zip ds) :
    lookupDict y (ys.reverse.zip ds.reverse) = some d := by
  induction ys generalizing ds with
  | nil => simp at hmem
  | cons x ys1 ih =>
    match ds with
    | [] => simp at hmem
    | e :: ds1 =>
      have hlen1 : ys1.length = ds1.length := by simpa using hlen
      have hzip : (x :: ys1).reverse.zip ((e :: ds1).reverse) =
          ys1.reverse.zip ds1.reverse ++ [(x, e)] := by
        simp only [List.reverse_cons]
        rw [List.zip_append (by simp [hlen1])]
        rfl
      rw [hzip, lookupDict_append]
      rcases (by simpa using hmem :
          y = x ∧ d = e ∨ (y, d) ∈ ys1.zip ds1) with ⟨hy, hd⟩ | htail
      · subst hy
        subst hd
        have hnx : y ∉ ys1 := (List.nodup_cons.mp hnd).1
        have hnone : lookupDict y (ys1.reverse.zip ds1.reverse) =
            Option.none := by
          apply lookupDict_eq_none
          rintro ⟨k0, v⟩ hp heq
          have hk0 : k0 ∈ ys1 := by
            have := (List.of_mem_zip hp).1
            simpa using this
          exact hnx (heq ▸ hk0)
        simp [hnone, lookupDict]
      · have hrec := ih ds1 (List.nodup_cons.mp hnd).2 hlen1 htail
        simp [hrec]

/-- With at most as many defaults as parameters, the defaults dict pairs
exactly the trailing `defaults.length` parameters with the defaults. -/
theorem commandKwargs_eq (xs : List String) (ds : List PyVal)
    (hlen : ds.length ≤ xs.length) :
    commandKwargs xs ds =
      ((xs.drop (xs.length - ds.length)).reverse).zip ds.reverse := by
  unfold commandKwargs
  have hsplit : xs.reverse =
      (xs.drop (xs.length - ds.length)).reverse ++
        (xs.take (xs.length - ds.length)).reverse := by
    rw [← List.reverse_append, List.take_append_drop]
  rw [hsplit]
  calc ((xs.drop (xs.length - ds.length)).reverse ++
          (xs.take (xs.length - ds.length)).reverse).zip ds.reverse
      = ((xs.drop (xs.length - ds.length)).reverse ++
          (xs.take (xs.length - ds.length)).reverse).zip
          (ds.reverse ++ []) := by rw [List.append_nil]
    _ = (xs.drop (xs.length - ds.length)).reverse.zip ds.reverse ++
          (xs.take (xs.length - ds.length)).reverse.zip [] := by
        apply List.zip_append
        simp
        omega
    _ = (xs.drop (xs.length - ds.length)).reverse.zip ds.reverse := by simp

/-- A parameter from the required (leading) zone is absent from the
defaults dict. -/
theorem lookupDict_take_none (xs : List String) (ds : List PyVal)
    (hnd : xs.Nodup) (hlen : ds.length ≤ xs.length) (a : String)
    (ha : a ∈ xs.take (xs.length - ds.length)) :
    lookupDict a (commandKwargs xs ds) = Option.none := by
  rw [commandKwargs_eq xs ds hlen]
  apply lookupDict_eq_none
  rintro ⟨k0, v⟩ hp heq
  have hk0 : k0 ∈ xs.drop (xs.length - ds.length) := by
    have := (List.of_mem_zip hp).1
    simpa using this
  exact List.disjoint_take_drop hnd (le_refl _) ha (heq ▸ hk0)

/-- Mapping a function over a list agrees with mapping a two-argument
function over the zip with an equally long list, whenever the two agree
on every zipped pair. -/
theorem map_eq_zip_map {α β γ : Type} (F : α → γ) (G : α → β → γ) :
    ∀ (ys : List α) (ds : List β), ys.length = ds.length →
      (∀ y d, (y, d) ∈ ys.zip ds → F y = G y d) →
      ys.map F = (ys.zip ds).map (fun p => G p.1 p.2)
  | [], [], _, _ => rfl
  | [], _ :: _, h, _ => by simp at h
  | _ :: _, [], h, _ => by simp at h
  | y :: ys, d :: ds, h, hc => by
    simp only [List.zip_cons_cons, List.map_cons]
    refine congrArg₂ List.cons (hc y d (by simp)) ?_
    exact map_eq_zip_map F G ys ds (by simpa using h)
      (fun a b hab => hc a b (by simp [hab]))

/-- Characterization of `Manager.command`: the derived option list has one
entry per parameter in declaration order; the leading parameters without a
default become positionals and the trailing defaulted parameters become
optional flags. -/
theorem managerCommandOptions_spec (xs : List String) (ds : List PyVal)
    (hnd : xs.Nodup) (hlen : ds.length ≤ xs.length) :
    managerCommandOptions xs ds =
      (xs.take (xs.length - ds.length)).map derivePositional ++
      ((xs.drop (xs.length - ds.length)).zip ds).map
        (fun p => deriveDefaulted p.1 p.2) := by
  have hdlen : (xs.drop (xs.length - ds.length)).length = ds.length := by
    simp
    omega
  have key : ∀ (KW : List (String × PyVal)),
      (∀ a ∈ xs.take (xs.length - ds.length),
        lookupDict a KW = Option.none) →
      (∀ y d, (y, d) ∈ (xs.drop (xs.length - ds.length)).zip ds →
        lookupDict y KW = some d) →
      xs.map (deriveOption KW) =
        (xs.take (xs.length - ds.length)).map derivePositional ++
        ((xs.drop (xs.length - ds.length)).zip ds).map
          (fun p => deriveDefaulted p.1 p.2) := by
    intro KW h1 h2
    conv_lhs => rw [← List.take_append_drop (xs.length - ds.length) xs]
    rw [List.map_append]
    congr 1
    · apply List.map_congr_left
      intro a ha
      simp [deriveOption, h1 a ha]
    · apply map_eq_zip_map _ _ _ _ hdlen
      intro y d hmem
      simp [deriveOption, h2 y d hmem]
  apply key
  · exact fun a ha => lookupDict_take_none xs ds hnd hlen a ha
  · intro y d hmem
    rw [commandKwargs_eq xs ds hlen]
    exact lookupDict_revzip_mem (xs.drop (xs.length - ds.length)) ds
      (hnd.sublist (List.drop_sublist _ _)) hdlen y d hmem

theorem lookupDict_eq_none_iff {β : Type} (k : String)
    (l : List (String × β)) :
    lookupDict k l = Option.none ↔ ∀ p ∈ l, p.1 ≠ k := by
  constructor
  · induction l with
    | nil => intro _ p hp; cases hp
    | cons q rest ih =>
      obtain ⟨k0, v⟩ := q
      intro h p hp
      by_cases hk : k0 = k
      · simp [lookupDict, hk] at h
      · simp only [lookupDict, if_neg hk] at h
        rcases hp with _ | ⟨_, hp⟩
        · exact hk
        · exact ih h p hp
  · exact lookupDict_eq_none k l

/-- Replacing the value at a key changes no other binding. -/
theorem lookupDict_map_replace_other {β : Type} (l : List (String × β))
    (k k2 : String) (v : β) (hne : k2 ≠ k) :
    lookupDict k2 (l.map (replaceKey k v)) = lookupDict k2 l := by
  induction l with
  | nil => rfl
  | cons q rest ih =>
    obtain ⟨k0, v0⟩ := q
    simp only [List.map_cons]
    by_cases hk : k0 = k
    · subst hk
      simp only [replaceKey, if_pos rfl]
      simp only [lookupDict, if_neg (fun h : k0 = k2 => hne h.symm)]
      exact ih
    · simp only [replaceKey, if_neg hk]
      simp only [lookupDict]
      by_cases hk2 : k0 = k2
      · simp [hk2]
      · simp only [if_neg hk2]
        exact ih

/-- Looking up the replaced key after a replace succeeds whenever the
key was present. -/
theorem lookupDict_map_replace_self {β : Type} (l : List (String × β))
    (k : String) (v : β) (hsome : (lookupDict k l).isSome = true) :
    lookupDict k (l.map (replaceKey k v)) = some v := by
  induction l with
  | nil => simp [lookupDict] at hsome
  | cons q rest ih =>
    obtain ⟨k0, v0⟩ := q
    simp only [List.map_cons]
    by_cases hk : k0 = k
    · subst hk
      simp only [replaceKey, if_pos rfl]
      simp [lookupDict]
    · simp only [replaceKey, if_neg hk]
      simp only [lookupDict, if_neg hk] at hsome ⊢
      exact ih hsome

/-- Setting a key makes it readable. -/
theorem lookupDict_dictSet_self {β : Type} (l : List (String × β))
    (k : String) (v : β) :
    lookupDict k (dictSet l k v) = some v := by
  unfold dictSet
  by_cases h : (lookupDict k l).isSome
  · rw [if_pos h]
    exact lookupDict_map_replace_self l k v h
  · rw [if_neg h, lookupDict_append]
    have hnone : lookupDict k l = Option.none := by
      cases hl : lookupDict k l
      · rfl
      · rw [hl] at h
        simp at h
    rw [hnone]
    simp [lookupDict]

/-- Setting a key leaves every other binding untouched. -/
theorem lookupDict_dictSet_other {β : Type} (l : List (String × β))
    (k k2 : String) (v : β) (hne : k2 ≠ k) :
    lookupDict k2 (dictSet l k v) = lookupDict k2 l := by
  unfold dictSet
  by_cases h : (lookupDict k l).isSome
  · rw [if_pos h]
    exact lookupDict_map_replace_other l k k2 v hne
  · rw [if_neg h, lookupDict_append]
    have hkne : ¬ k = k2 := fun hk => hne hk.symm
    cases hl : lookupDict k2 l with
    | none => simp [lookupDict, hkne]
    | some w => rfl

/-- A replace at an absent key is the identity. -/
theorem map_replace_of_no_key {β : Type} (l : List (String × β))
    (k : String) (v : β) (h : ∀ p ∈ l, p.1 ≠ k) :
    l.map (replaceKey k v) = l := by
  induction l with
  | nil => rfl
  | cons q rest ih =>
    obtain ⟨k0, v0⟩ := q
    have hk : k0 ≠ k := h (k0, v0) (List.mem_cons_self _ _)
    simp only [List.map_cons, replaceKey, if_neg hk]
    rw [ih fun p hp => h p (List.mem_cons_of_mem _ hp)]

/-- Setting an absent key appends it. -/
theorem dictSet_of_lookup_none {β : Type} (l : List (String × β))
    (k : String) (v : β) (h : lookupDict k l = Option.none) :
    dictSet l k v = l ++ [(k, v)] := by
  unfold dictSet
  rw [if_neg]
  rw [h]
  simp

/-- `create_app` resolves through the parent chain to the root Manager. -/
theorem create_app_eq_root (m : Mgr) (kw : List (String × PyVal)) :
    m.create_app kw = m.root.create_app kw := by
  induction m with
  | base o a => cases a <;> rfl
  | sub o a p ih =>
    rw [show (Mgr.sub o a p).create_app kw = p.create_app kw from rfl]
    rw [show (Mgr.sub o a p).root = p.root from rfl]
    exact ih

/-- The root of a chain has no parent case: it is a `base` Manager. -/
theorem root_is_base (m : Mgr) :
    ∃ o a, m.root = Mgr.base o a := by
  induction m with
  | base o a => exact ⟨o, a, rfl⟩
  | sub o a p ih => exact ih

/-- The keys `Manager.handle` treats as safe application-configuration
keys are exactly the destinations of manager-level actions whose action
class is in `safe_actions`. -/
theorem contains_appConfigKeys (mA : List ArgAction) (k : String) :
    (appConfigKeys mA).contains k = true ↔
      ∃ a ∈ mA, a.dest = k ∧ safeAction a.kind = true := by
  rw [show ((appConfigKeys mA).contains k = true) ↔ k ∈ appConfigKeys mA
      from List.elem_iff]
  unfold appConfigKeys
  simp only [List.mem_map, List.mem_filter]
  constructor
  · rintro ⟨a, ⟨ha, hsafe⟩, hdest⟩
    exact ⟨a, ha, hdest, hsafe⟩
  · rintro ⟨a, ha, hdest, hsafe⟩
    exact ⟨a, ⟨ha, hsafe⟩, hdest⟩

/-- Replacing a value never changes the key sequence. -/
theorem keys_map_replace {β : Type} (l : List (String × β)) (k : String)
    (v : β) :
    (l.map (replaceKey k v)).map Prod.fst = l.map Prod.fst := by
  induction l with
  | nil => rfl
  | cons q rest ih =>
    obtain ⟨k0, v0⟩ := q
    simp only [List.map_cons, ih]
    unfold replaceKey
    by_cases hk : k0 = k
    · simp [hk]
    · simp [hk]

/-- An update at a present key keeps the key sequence. -/
theorem keys_dictSet_present {β : Type} (l : List (String × β))
    (k : String) (v : β) (h : (lookupDict k l).isSome = true) :
    (dictSet l k v).map Prod.fst = l.map Prod.fst := by
  unfold dictSet
  rw [if_pos h]
  exact keys_map_replace l k v

/-- An insert at an absent key appends it to the key sequence. -/
theorem keys_dictSet_absent {β : Type} (l : List (String × β))
    (k : String) (v : β) (h : lookupDict k l = Option.none) :
    (dictSet l k v).map Prod.fst = l.map Prod.fst ++ [k] := by
  rw [dictSet_of_lookup_none l k v h]
  simp

/-- A key that cannot be looked up is not among the keys. -/
theorem not_mem_keys_of_lookup_none {β : Type} (l : List (String × β))
    (k : String) (h : lookupDict k l = Option.none) :
    k ∉ l.map Prod.fst := by
  intro hk
  obtain ⟨p, hp, hpk⟩ := List.mem_map.mp hk
  exact ((lookupDict_eq_none_iff k l).mp h p hp) hpk

/-- C6: registering two commands with `add_command` under the same
explicit namespace, fresh in the Manager's registry, produces exactly one
registry entry under the namespace name — a sub-Manager whose registry
holds exactly those two commands, each reachable under its own name —
with the second registration reusing the sub-registry created by the
first rather than creating another, and every other registry entry left
untouched. -/
theorem addCommand_namespace_groups (reg : List (String × CmdEntry))
    (nsp n1 n2 : String) (c1 c2 : Nat)
    (h0 : lookupDict nsp reg = Option.none) (h12 : n1 ≠ n2) :
    ∃ reg1 reg2,
      addCommand reg n1 (CmdEntry.cmd c1) (some nsp) = some reg1 ∧
      addCommand reg1 n2 (CmdEntry.cmd c2) (some nsp) = some reg2 ∧
      lookupDict nsp reg2 =
        some (CmdEntry.mgr [(n1, CmdEntry.cmd c1), (n2, CmdEntry.cmd c2)]) ∧
      (reg2.map Prod.fst).count nsp = 1 ∧
      ∀ k, k ≠ nsp → lookupDict k reg2 = lookupDict k reg := by
  have hA : lookupDict nsp (dictSet reg nsp (CmdEntry.mgr [])) =
      some (CmdEntry.mgr []) := lookupDict_dictSet_self reg nsp _
  have hstep1 : addCommand reg n1 (CmdEntry.cmd c1) (some nsp) =
      some (dictSet (dictSet reg nsp (CmdEntry.mgr [])) nsp
        (CmdEntry.mgr [(n1, CmdEntry.cmd c1)])) := by
    unfold addCommand
    simp only [h0, Option.isSome_none, Bool.false_eq_true, if_false]
    rw [hA]
    rfl
  have hB : lookupDict nsp (dictSet (dictSet reg nsp (CmdEntry.mgr [])) nsp
      (CmdEntry.mgr [(n1, CmdEntry.cmd c1)])) =
      some (CmdEntry.mgr [(n1, CmdEntry.cmd c1)]) :=
    lookupDict_dictSet_self _ nsp _
  have hsub : dictSet [(n1, CmdEntry.cmd c1)] n2 (CmdEntry.cmd c2) =
      [(n1, CmdEntry.cmd c1), (n2, CmdEntry.cmd c2)] := by
    rw [dictSet_of_lookup_none _ _ _ (by simp [lookupDict, h12])]
    rfl
  have hstep2 : addCommand
      (dictSet (dictSet reg nsp (CmdEntry.mgr [])) nsp
        (CmdEntry.mgr [(n1, CmdEntry.cmd c1)]))
      n2 (CmdEntry.cmd c2) (some nsp) =
      some (dictSet (dictSet (dictSet reg nsp (CmdEntry.mgr [])) nsp
          (CmdEntry.mgr [(n1, CmdEntry.cmd c1)])) nsp
        (CmdEntry.mgr [(n1, CmdEntry.cmd c1), (n2, CmdEntry.cmd c2)])) := by
    unfold addCommand
    simp only [hB, Option.isSome_some, if_true]
    rw [hsub]
  refine ⟨_, _, hstep1, hstep2, lookupDict_dictSet_self _ nsp _, ?_, ?_⟩
  · have hkeys :
        ((dictSet (dictSet (dictSet reg nsp (CmdEntry.mgr [])) nsp
            (CmdEntry.mgr [(n1, CmdEntry.cmd c1)])) nsp
          (CmdEntry.mgr [(n1, CmdEntry.cmd c1),
            (n2, CmdEntry.cmd c2)])).map Prod.fst) =
        reg.map Prod.fst ++ [nsp] := by
      rw [keys_dictSet_present _ _ _ (by rw [hB]; rfl)]
      rw [keys_dictSet_present _ _ _ (by rw [hA]; rfl)]
      exact keys_dictSet_absent reg nsp _ h0
    rw [hkeys, List.count_append,
      List.count_eq_zero.mpr (not_mem_keys_of_lookup_none reg nsp h0)]
    simp
  · intro k hk
    rw [lookupDict_dictSet_other _ _ _ _ hk,
      lookupDict_dictSet_other _ _ _ _ hk,
      lookupDict_dictSet_other _ _ _ _ hk]

/-- C1: for every dispatch through the new-revision `Manager.handle`, the
application factory receives exactly those parsed values whose
destination belongs to a manager-level argument registered with a safe
action class (`safe_actions`: store, store_const, store_true,
store_false, append, append_const, count); every parsed value whose
destination has no such safe registration is excluded from the factory
keyword arguments, and the safe destinations are conversely removed from
the keyword arguments passed to the command body. -/
theorem handle_app_config_safe_actions
    (mA cA : List ArgAction) (cap : Bool) (args : List String)
    (ns : List (String × PyVal)) (rem : List String) (r : Dispatch)
    (hp : parseKnownArgs (mA ++ cA) args (initNamespace (mA ++ cA)) =
      .ok (ns, rem))
    (hr : managerHandle mA cA cap args = .ok r) :
    (∀ kv : String × PyVal, kv ∈ r.appConfig ↔
        kv ∈ ns ∧ ∃ a ∈ mA, a.dest = kv.1 ∧ safeAction a.kind = true) ∧
    (∀ kv : String × PyVal, kv ∈ r.bodyKwargs ↔
        kv ∈ ns ∧ ¬ ∃ a ∈ mA, a.dest = kv.1 ∧ safeAction a.kind = true) := by
  unfold managerHandle at hr
  dsimp only at hr
  rw [hp] at hr
  dsimp only at hr
  have hfields : r.appConfig =
      ns.filter (fun kv => (appConfigKeys mA).contains kv.1) ∧
      r.bodyKwargs =
      ns.filter (fun kv => !((appConfigKeys mA).contains kv.1)) := by
    split at hr
    · injection hr with h
      subst h
      exact ⟨rfl, rfl⟩
    · split at hr
      · injection hr with h
        subst h
        exact ⟨rfl, rfl⟩
      · cases hr
  obtain ⟨hc, hb⟩ := hfields
  constructor
  · intro kv
    rw [hc, List.mem_filter]
    constructor
    · rintro ⟨hm, hcc⟩
      exact ⟨hm, (contains_appConfigKeys mA kv.1).mp hcc⟩
    · rintro ⟨hm, hex⟩
      exact ⟨hm, (contains_appConfigKeys mA kv.1).mpr hex⟩
  · intro kv
    rw [hb, List.mem_filter]
    constructor
    · rintro ⟨hm, hcc⟩
      refine ⟨hm, fun hex => ?_⟩
      rw [(contains_appConfigKeys mA kv.1).mpr hex] at hcc
      cases hcc
    · rintro ⟨hm, hex⟩
      refine ⟨hm, ?_⟩
      cases hcc : (appConfigKeys mA).contains kv.1
      · rfl
      · exact absurd ((contains_appConfigKeys mA kv.1).mp hcc) hex

/-- Witness for C1 at a concrete dispatch: manager option `--config`
(store, safe) and command option `--name`; parsing
`--config dev.cfg --name joe` sends exactly `config` to the factory and
exactly `name` to the body. -/
theorem handle_app_config_safe_actions_witness :
    parseKnownArgs ([configAct] ++ [nameAct])
      ["--config", "dev.cfg", "--name", "joe"]
      (initNamespace ([configAct] ++ [nameAct])) =
      .ok ([("config", PyVal.str "dev.cfg"), ("name", PyVal.str "joe")],
        []) ∧
    managerHandle [configAct] [nameAct] false
      ["--config", "dev.cfg", "--name", "joe"] =
      .ok { appConfig := [("config", PyVal.str "dev.cfg")],
            bodyKwargs := [("name", PyVal.str "joe")],
            positionalArgs := [] } ∧
    ((∀ kv : String × PyVal,
        kv ∈ (Dispatch.mk [("config", PyVal.str "dev.cfg")]
            [("name", PyVal.str "joe")] []).appConfig ↔
          kv ∈ ([("config", PyVal.str "dev.cfg"),
              ("name", PyVal.str "joe")] : List (String × PyVal)) ∧
          ∃ a ∈ [configAct],
            ArgAction.dest a = kv.1 ∧ safeAction a.kind = true) ∧
      (∀ kv : String × PyVal,
        kv ∈ (Dispatch.mk [("config", PyVal.str "dev.cfg")]
            [("name", PyVal.str "joe")] []).bodyKwargs ↔
          kv ∈ ([("config", PyVal.str "dev.cfg"),
              ("name", PyVal.str "joe")] : List (String × PyVal)) ∧
          ¬ ∃ a ∈ [configAct],
            ArgAction.dest a = kv.1 ∧ safeAction a.kind = true)) :=
  ⟨rfl, rfl,
    handle_app_config_safe_actions [configAct] [nameAct] false
      ["--config", "dev.cfg", "--name", "joe"]
      [("config", PyVal.str "dev.cfg"), ("name", PyVal.str "joe")] []
      (Dispatch.mk [("config", PyVal.str "dev.cfg")]
        [("name", PyVal.str "joe")] [])
      rfl rfl⟩

/-- C2 (amended): for a capture-all command, provided every declared
value-taking option occurring in the argument vector is followed by a
usable value token, dispatch never produces a parse error: all
unconsumed tokens — in particular every flag-like token that matches no
declared option string, such as an unrecognized `--bar` — are collected
verbatim, in their original order, into a single sequence passed to the
command body as its one positional argument. -/
theorem captureAll_collects_unconsumed (mA cA : List ArgAction)
    (args : List String)
    (hwf : flagsWellFormed (mA ++ cA) args = true) :
    ∃ ns extras,
      parseKnownArgs (mA ++ cA) args (initNamespace (mA ++ cA)) =
        .ok (ns, extras) ∧
      managerHandle mA cA true args =
        .ok { appConfig :=
                ns.filter (fun kv => (appConfigKeys mA).contains kv.1)
              bodyKwargs :=
                ns.filter (fun kv => !((appConfigKeys mA).contains kv.1))
              positionalArgs := [extras] } ∧
      extras.Sublist args ∧
      ∀ t ∈ args, dashPrefixed t = true →
        findAction (mA ++ cA) t = Option.none → t ∈ extras := by
  obtain ⟨ns, extras, hok, hsub, hmem⟩ :=
    parseKnownArgs_wf (mA ++ cA) args (initNamespace (mA ++ cA)) hwf
  refine ⟨ns, extras, hok, ?_, hsub, hmem⟩
  unfold managerHandle
  dsimp only
  rw [hok]
  rfl

/-- C2 counterexample: the claim as stated is false — a capture-all
dispatch can produce a parse error even though the tail contains an
undeclared flag-like token.  With `-n`/`--name` declared as a
value-taking option on the command, the vector `["--bar", "-n"]`
(whose tail contains the undeclared `--bar`) makes argparse fail with
"argument -n: expected one argument" instead of capturing the tokens. -/
theorem captureAll_parse_error_cex :
    findAction [nameAct] "--bar" = Option.none ∧
    managerHandle [] [nameAct] true ["--bar", "-n"] =
      .error (ParseErr.expectedOneArgument "name") :=
  ⟨rfl, rfl⟩

/-- Witness for C2 at the spec's own example: a capture-all command
declaring only the toggle `--foo`, dispatched on
`pos1 --foo pos2 --bar`, succeeds and hands `["pos1", "pos2", "--bar"]`
to the body as one positional sequence. -/
theorem captureAll_collects_unconsumed_witness :
    flagsWellFormed ([] ++ [fooAct])
      ["pos1", "--foo", "pos2", "--bar"] = true ∧
    (∃ ns extras,
      parseKnownArgs ([] ++ [fooAct]) ["pos1", "--foo", "pos2", "--bar"]
        (initNamespace ([] ++ [fooAct])) = .ok (ns, extras) ∧
      managerHandle [] [fooAct] true ["pos1", "--foo", "pos2", "--bar"] =
        .ok { appConfig :=
                ns.filter (fun kv => (appConfigKeys []).contains kv.1)
              bodyKwargs :=
                ns.filter (fun kv => !((appConfigKeys []).contains kv.1))
              positionalArgs := [extras] } ∧
      extras.Sublist ["pos1", "--foo", "pos2", "--bar"] ∧
      ∀ t ∈ ["pos1", "--foo", "pos2", "--bar"], dashPrefixed t = true →
        findAction ([] ++ [fooAct]) t = Option.none → t ∈ extras) :=
  ⟨rfl,
    captureAll_collects_unconsumed [] [fooAct]
      ["pos1", "--foo", "pos2", "--bar"] rfl⟩

/-- C3 counterexample: the claim as stated is false for a boolean default
of `True`.  `Manager.command` still emits a `store_true` flag, so passing
the flag binds the parameter to `True` — equal to the default, not its
opposite. -/
theorem bool_toggle_cex :
    managerCommandOptions ["verbose"] [PyVal.bool true] =
      [deriveDefaulted "verbose" (PyVal.bool true)] ∧
    (deriveDefaulted "verbose" (PyVal.bool true)).default =
      some (PyVal.bool true) ∧
    parsedDest [(deriveDefaulted "verbose" (PyVal.bool true)).toAction]
      ["--verbose"] "verbose" = some (PyVal.bool true) ∧
    PyVal.bool true ≠ PyVal.bool (!true) :=
  ⟨rfl, rfl, rfl, by decide⟩

/-- C3 (amended): a parameter with boolean default `b` is derived as an
optional flag with `action=store_true`, `dest` the parameter name and
default `b`; invoking without the flag binds the parameter to `b`,
invoking with the flag's long or short form binds it to `True` (the
opposite of the default when the default is `False`), and the flag never
consumes a following value token — an unrecognized following token is
left among the remaining arguments. -/
theorem bool_default_store_true_toggle (name : String) (b : Bool)
    (hop : (deriveDefaulted name (PyVal.bool b)).isPositional = false) :
    managerCommandOptions [name] [PyVal.bool b] =
      [deriveDefaulted name (PyVal.bool b)] ∧
    (deriveDefaulted name (PyVal.bool b)).action = some "store_true" ∧
    (deriveDefaulted name (PyVal.bool b)).default =
      some (PyVal.bool b) ∧
    parsedDest [(deriveDefaulted name (PyVal.bool b)).toAction] []
      name = some (PyVal.bool b) ∧
    parsedDest [(deriveDefaulted name (PyVal.bool b)).toAction]
      ["--" ++ name] name = some (PyVal.bool true) ∧
    parsedDest [(deriveDefaulted name (PyVal.bool b)).toAction]
      ["-" ++ name.take 1] name = some (PyVal.bool true) ∧
    ∀ extra : String,
      findAction [(deriveDefaulted name (PyVal.bool b)).toAction]
        extra = Option.none →
      parseKnownArgs [(deriveDefaulted name (PyVal.bool b)).toAction]
        ["--" ++ name, extra]
        (initNamespace
          [(deriveDefaulted name (PyVal.bool b)).toAction]) =
        .ok ([(name, PyVal.bool true)], [extra]) := by
  have hdd : deriveDefaulted name (PyVal.bool b) =
      { args := ["-" ++ name.take 1, "--" ++ name]
        action := some "store_true"
        dest := some name
        argType := Option.none
        required := some false
        default := some (PyVal.bool b) } := rfl
  have hact : (deriveDefaulted name (PyVal.bool b)).toAction =
      { optionStrings := ["-" ++ name.take 1, "--" ++ name]
        dest := name
        kind := ActKind.storeTrue
        const := PyVal.none
        default := PyVal.bool b } := by
    unfold Opt.toAction
    rw [hop]
    rfl
  have hns : initNamespace [(deriveDefaulted name (PyVal.bool b)).toAction] =
      [(name, PyVal.bool b)] := by
    rw [hact]
    rfl
  have hlook : lookupDict name [(name, PyVal.bool b)] =
      some (PyVal.bool b) := by simp [lookupDict]
  have hset : dictSet [(name, PyVal.bool b)] name (PyVal.bool true) =
      [(name, PyVal.bool true)] := by
    simp [dictSet, hlook, replaceKey]
  have hcommand : managerCommandOptions [name] [PyVal.bool b] =
      [deriveDefaulted name (PyVal.bool b)] := by
    unfold managerCommandOptions commandKwargs deriveOption
    simp [lookupDict]
  have hparse1 : ∀ tok : String,
      findAction [(deriveDefaulted name (PyVal.bool b)).toAction] tok =
        some ((deriveDefaulted name (PyVal.bool b)).toAction) →
      parseKnownArgs [(deriveDefaulted name (PyVal.bool b)).toAction]
        [tok] [(name, PyVal.bool b)] =
        .ok ([(name, PyVal.bool true)], []) := by
    intro tok hfind
    unfold parseKnownArgs
    rw [hfind, hact]
    dsimp only [takesValue]
    simp only [Bool.false_eq_true, if_false]
    dsimp only [applyAction]
    rw [hset]
  have hlongfind :
      findAction [(deriveDefaulted name (PyVal.bool b)).toAction]
        ("--" ++ name) =
      some ((deriveDefaulted name (PyVal.bool b)).toAction) := by
    rw [hact]
    unfold findAction
    have hc : (["-" ++ name.take 1, "--" ++ name].contains
        ("--" ++ name)) = true := by
      cases h1 : (("--" ++ name) == ("-" ++ name.take 1)) <;>
        simp [List.contains, List.elem, h1]
    simp [List.find?, hc]
  have hshortfind :
      findAction [(deriveDefaulted name (PyVal.bool b)).toAction]
        ("-" ++ name.take 1) =
      some ((deriveDefaulted name (PyVal.bool b)).toAction) := by
    rw [hact]
    unfold findAction
    have hc : (["-" ++ name.take 1, "--" ++ name].contains
        ("-" ++ name.take 1)) = true := by
      simp [List.contains, List.elem]
    simp [List.find?, hc]
  refine ⟨hcommand, rfl, rfl, ?_, ?_, ?_, ?_⟩
  · unfold parsedDest
    rw [hns]
    dsimp only [parseKnownArgs]
    exact hlook
  · unfold parsedDest
    rw [hns, hparse1 ("--" ++ name) hlongfind]
    simp [lookupDict]
  · unfold parsedDest
    rw [hns, hparse1 ("-" ++ name.take 1) hshortfind]
    simp [lookupDict]
  · intro extra hfx
    rw [hns]
    unfold parseKnownArgs
    rw [hlongfind, hact]
    dsimp only [takesValue]
    simp only [Bool.false_eq_true, if_false]
    dsimp only [applyAction]
    rw [hset]
    unfold parseKnownArgs
    rw [hact] at hfx
    rw [hfx]

/-- Witness for C3 at the spec's example `verify(verified=False)`:
without the flag the parameter is `False`; with `--verified` or `-v` it
is `True` — the opposite of the default. -/
theorem bool_default_store_true_toggle_witness :
    (deriveDefaulted "verified" (PyVal.bool false)).isPositional =
      false ∧
    managerCommandOptions ["verified"] [PyVal.bool false] =
      [deriveDefaulted "verified" (PyVal.bool false)] ∧
    parsedDest
      [(deriveDefaulted "verified" (PyVal.bool false)).toAction] []
      "verified" = some (PyVal.bool false) ∧
    parsedDest
      [(deriveDefaulted "verified" (PyVal.bool false)).toAction]
      ["--" ++ "verified"] "verified" = some (PyVal.bool true) ∧
    parsedDest
      [(deriveDefaulted "verified" (PyVal.bool false)).toAction]
      ["-" ++ ("verified" : String).take 1] "verified" =
      some (PyVal.bool true) :=
  ⟨rfl,
    (bool_default_store_true_toggle "verified" false rfl).1,
    (bool_default_store_true_toggle "verified" false rfl).2.2.2.1,
    (bool_default_store_true_toggle "verified" false rfl).2.2.2.2.1,
    (bool_default_store_true_toggle "verified" false rfl).2.2.2.2.2.1⟩

/-- C4: for an introspectable function with distinct parameter names,
the deriver produces one flag descriptor per parameter in parameter-list
order: each parameter without a default becomes a positional descriptor
named by the bare parameter name, and each parameter with a non-boolean
default becomes an optional descriptor with short flag `-` plus the
first letter, long flag `--` plus the name, `dest` the name and
`default` the function's default value. -/
theorem managerCommand_descriptor_shapes (xs : List String)
    (ds : List PyVal) (hnd : xs.Nodup) (hlen : ds.length ≤ xs.length) :
    (managerCommandOptions xs ds).length = xs.length ∧
    managerCommandOptions xs ds =
      (xs.take (xs.length - ds.length)).map (fun arg =>
        { args := [arg]
          action := Option.none
          dest := Option.none
          argType := some "text_type"
          required := Option.none
          default := Option.none }) ++
      ((xs.drop (xs.length - ds.length)).zip ds).map (fun p =>
        if p.2.isBool then deriveDefaulted p.1 p.2 else
          { args := ["-" ++ p.1.take 1, "--" ++ p.1]
            action := Option.none
            dest := some p.1
            argType := some "text_type"
            required := some false
            default := some p.2 }) := by
  constructor
  · simp [managerCommandOptions]
  · rw [managerCommandOptions_spec xs ds hnd hlen]
    refine congrArg₂ (fun x y => x ++ y) ?_ ?_
    · exact List.map_congr_left (fun a _ => rfl)
    · apply List.map_congr_left
      intro p _
      by_cases h : p.2.isBool = true
      · rw [if_pos h]
      · rw [if_neg h]
        unfold deriveDefaulted
        rw [if_neg h]

/-- Witness for C4 at `hello(name, url=None)`: one positional `name` and
one optional `-u`/`--url` descriptor with default `None`. -/
theorem managerCommand_descriptor_shapes_witness :
    (["name", "url"] : List String).Nodup ∧
    ([PyVal.none] : List PyVal).length ≤
      (["name", "url"] : List String).length ∧
    (managerCommandOptions ["name", "url"] [PyVal.none]).length = 2 ∧
    managerCommandOptions ["name", "url"] [PyVal.none] =
      [derivePositional "name",
        deriveDefaulted "url" PyVal.none] :=
  ⟨by decide, by decide,
    (managerCommand_descriptor_shapes ["name", "url"] [PyVal.none]
      (by decide) (by decide)).1,
    by decide⟩

/-- C5 counterexample: the claim fails at nesting depth two —
`get_options` of a sub-sub-Manager returns the middle Manager's own
(empty) `_options` field, not the root Manager's option list. -/
theorem sub_manager_get_options_cex :
    (Mgr.sub [] (AppSource.flaskInstance (App.mk 0 []))
      (Mgr.sub [] (AppSource.flaskInstance (App.mk 0 []))
        (Mgr.base [derivePositional "config"]
          (AppSource.flaskInstance (App.mk 0 []))))).get_options = [] ∧
    (Mgr.sub [] (AppSource.flaskInstance (App.mk 0 []))
      (Mgr.sub [] (AppSource.flaskInstance (App.mk 0 []))
        (Mgr.base [derivePositional "config"]
          (AppSource.flaskInstance
            (App.mk 0 []))))).root.optionsField =
      [derivePositional "config"] ∧
    ([] : List Opt) ≠ [derivePositional "config"] :=
  ⟨rfl, rfl, by decide⟩

/-- C5 (amended): a Manager whose parent is set takes `get_options` from
its immediate parent's `_options` field — which is the root's option
list only at nesting depth one — while `create_app` delegates
application construction recursively all the way to the root Manager's
app factory. -/
theorem sub_manager_defers (o : List Opt) (a : AppSource) (p : Mgr) :
    (Mgr.sub o a p).get_options = p.optionsField ∧
    (Mgr.sub o a p).root = p.root ∧
    ∀ kw, (Mgr.sub o a p).create_app kw =
      (Mgr.sub o a p).root.create_app kw := by
  refine ⟨rfl, rfl, fun kw => ?_⟩
  exact create_app_eq_root (Mgr.sub o a p) kw

/-- C7: an exception raised by the command body that is not `SystemExit`
propagates unmodified through `Command.handle`, the tail of
`Manager.handle` and `Manager.run`, while the request context pushed
before the body call is released on the exceptional path (the context
stack is restored to its prior state); only `SystemExit` is intercepted
by `Manager.run`, its code becoming the process exit code. -/
theorem body_exception_propagates (w : World) (ctx : Nat) (e : PyExc)
    (hne : ∀ c, e ≠ PyExc.systemExit c) :
    commandHandle w ctx (.error e) = (.error e, w) ∧
    managerHandleOutcome w ctx (.error e) = (.error e, w) ∧
    managerRun w ctx (.error e) = (.error e, w) ∧
    ∀ c, managerRun w ctx (.error (PyExc.systemExit c)) = (.ok c, w) := by
  refine ⟨rfl, rfl, ?_, fun c => rfl⟩
  cases e with
  | systemExit c => exact absurd rfl (hne c)
  | other n => rfl

/-- Witness for C7: a `ValueError` raised by the body surfaces unchanged
from a dispatch started with context stack `[5]`, and the stack is `[5]`
again afterwards. -/
theorem body_exception_propagates_witness :
    (∀ c, PyExc.other "ValueError" ≠ PyExc.systemExit c) ∧
    (commandHandle (World.mk [5]) 0
        (.error (PyExc.other "ValueError")) =
      (.error (PyExc.other "ValueError"), World.mk [5]) ∧
    managerHandleOutcome (World.mk [5]) 0
        (.error (PyExc.other "ValueError")) =
      (.error (PyExc.other "ValueError"), World.mk [5]) ∧
    managerRun (World.mk [5]) 0 (.error (PyExc.other "ValueError")) =
      (.error (PyExc.other "ValueError"), World.mk [5]) ∧
    ∀ c, managerRun (World.mk [5]) 0
        (.error (PyExc.systemExit c)) = (.ok c, World.mk [5])) :=
  ⟨fun _ h => PyExc.noConfusion h,
    body_exception_propagates (World.mk [5]) 0
      (PyExc.other "ValueError") (fun _ h => PyExc.noConfusion h)⟩

/-- C8 counterexample: the claim that the deriver excludes the first
parameter is false — for parameter list `["app", "name"]` the derived
flag list contains a positional descriptor for the first parameter
`app` (the loop `for arg in args` iterates over every parameter; the
inline comment claiming the first argument is ignored is stale). -/
theorem first_param_not_excluded_cex :
    managerCommandOptions ["app", "name"] [] =
      [derivePositional "app", derivePositional "name"] ∧
    (managerCommandOptions ["app", "name"] []).length = 2 := by
  exact ⟨by decide, by decide⟩

/-- C8 (amended): the deriver excludes no parameter: it emits exactly
one descriptor per parameter, the first included — the head of the
derived list is the descriptor derived from the first parameter name. -/
theorem all_params_derive_flags (xs : List String) (ds : List PyVal) :
    (managerCommandOptions xs ds).length = xs.length ∧
    ∀ x rest, xs = x :: rest →
      (managerCommandOptions xs ds).head? =
        some (deriveOption (commandKwargs xs ds) x) := by
  constructor
  · simp [managerCommandOptions]
  · rintro x rest rfl
    rfl

/-- Witness for C8 (amended) at `hello(app, name)`: two descriptors, the
first derived from the first parameter `app`. -/
theorem all_params_derive_flags_witness :
    (managerCommandOptions ["app", "name"] []).length =
      (["app", "name"] : List String).length ∧
    (["app", "name"] : List String) = "app" :: ["name"] ∧
    (managerCommandOptions ["app", "name"] []).head? =
      some (deriveOption (commandKwargs ["app", "name"] []) "app") :=
  ⟨(all_params_derive_flags ["app", "name"] []).1, rfl,
    (all_params_derive_flags ["app", "name"] []).2 "app" ["name"] rfl⟩

/-- C9 counterexample: the claim that the later parameter's short flag
silently overwrites the earlier one's — leaving exactly one descriptor
with that short-flag string — is false: for `hello(fred='a', foo='b')`
BOTH derived descriptors carry the short flag `-f`. -/
theorem short_flag_collision_cex :
    ((managerCommandOptions ["fred", "foo"]
        [PyVal.str "a", PyVal.str "b"]).filter
      (fun o => o.args.contains "-f")).length = 2 ∧
    ¬ ((managerCommandOptions ["fred", "foo"]
        [PyVal.str "a", PyVal.str "b"]).filter
      (fun o => o.args.contains "-f")).length = 1 := by
  exact ⟨by decide, by decide⟩

/-- C9 (amended): when parameters of an all-defaulted function share a
first letter, the deriver keeps a descriptor for each of them — every
defaulted parameter's descriptor carries `-` plus the first letter of
its own name as well as `--` plus its name — so no descriptor is
overwritten and no error is raised at registration time; the collision
surfaces only when a parser is later built from the duplicate short
flags. -/
theorem short_flag_collision_both_kept (xs : List String)
    (ds : List PyVal) (hnd : xs.Nodup) (hlen : ds.length = xs.length) :
    managerCommandOptions xs ds =
      (xs.zip ds).map (fun p => deriveDefaulted p.1 p.2) ∧
    ∀ p : String × PyVal,
      ("-" ++ p.1.take 1) ∈ (deriveDefaulted p.1 p.2).args ∧
      ("--" ++ p.1) ∈ (deriveDefaulted p.1 p.2).args := by
  constructor
  · rw [managerCommandOptions_spec xs ds hnd (le_of_eq hlen)]
    rw [show xs.length - ds.length = 0 by omega]
    simp
  · intro p
    unfold deriveDefaulted
    by_cases h : p.2.isBool = true
    · rw [if_pos h]
      exact ⟨by simp, by simp⟩
    · rw [if_neg h]
      exact ⟨by simp, by simp⟩

/-- Witness for C9 (amended) at `hello(fred='a', foo='b')`: the derived
list keeps both descriptors, and each carries its own short flag (both
`-f` here). -/
theorem short_flag_collision_both_kept_witness :
    managerCommandOptions ["fred", "foo"] [PyVal.str "a", PyVal.str "b"] =
      ((["fred", "foo"] : List String).zip
        [PyVal.str "a", PyVal.str "b"]).map
        (fun p => deriveDefaulted p.1 p.2) ∧
    ("-" ++ ("fred" : String).take 1) ∈
      (deriveDefaulted "fred" (PyVal.str "a")).args ∧
    ("--" ++ "fred") ∈ (deriveDefaulted "fred" (PyVal.str "a")).args ∧
    ("-" ++ ("foo" : String).take 1) ∈
      (deriveDefaulted "foo" (PyVal.str "b")).args :=
  ⟨(short_flag_collision_both_kept ["fred", "foo"]
      [PyVal.str "a", PyVal.str "b"] (by decide) (by decide)).1,
    ((short_flag_collision_both_kept ["fred", "foo"]
      [PyVal.str "a", PyVal.str "b"] (by decide) (by decide)).2
      ("fred", PyVal.str "a")).1,
    ((short_flag_collision_both_kept ["fred", "foo"]
      [PyVal.str "a", PyVal.str "b"] (by decide) (by decide)).2
      ("fred", PyVal.str "a")).2,
    ((short_flag_collision_both_kept ["fred", "foo"]
      [PyVal.str "a", PyVal.str "b"] (by decide) (by decide)).2
      ("foo", PyVal.str "b")).1⟩

/-- C10: `option_list` on the base `Command` class is class-level shared
mutable state: for two instances that never assigned their own
`option_list`, `add_option` on one appends to the class attribute, so
the added option also appears in `get_options()` of the other instance
and of a freshly constructed bare `Command`; the caller instance itself
is unchanged. -/
theorem option_list_shared_class_state (cls : CommandClass)
    (c1 c2 : CommandObj) (o : Opt)
    (h1 : c1.ownOptions = Option.none)
    (h2 : c2.ownOptions = Option.none) :
    (c1.add_option cls o).1 = c1 ∧
    (c1.add_option cls o).2.option_list = cls.option_list ++ [o] ∧
    c2.get_options (c1.add_option cls o).2 = cls.option_list ++ [o] ∧
    CommandObj.new.get_options (c1.add_option cls o).2 =
      cls.option_list ++ [o] ∧
    o ∈ c2.get_options (c1.add_option cls o).2 := by
  have hadd : c1.add_option cls o =
      (c1, { option_list := cls.option_list ++ [o] }) := by
    unfold CommandObj.add_option
    rw [h1]
  rw [hadd]
  refine ⟨rfl, rfl, ?_, rfl, ?_⟩
  · unfold CommandObj.get_options CommandObj.readOptionList
    rw [h2]
  · unfold CommandObj.get_options CommandObj.readOptionList
    rw [h2]
    simp

/-- Witness for C10: starting from an empty class-level list, adding one
option through one bare instance makes it visible to a second bare
instance and to a fresh `Command()`. -/
theorem option_list_shared_class_state_witness :
    (CommandObj.new.ownOptions = Option.none ∧
      CommandObj.new.ownOptions = Option.none) ∧
    ((CommandObj.new.add_option (CommandClass.mk [])
        (derivePositional "name")).1 = CommandObj.new ∧
    (CommandObj.new.add_option (CommandClass.mk [])
        (derivePositional "name")).2.option_list =
      [] ++ [derivePositional "name"] ∧
    CommandObj.new.get_options
        (CommandObj.new.add_option (CommandClass.mk [])
          (derivePositional "name")).2 =
      [] ++ [derivePositional "name"] ∧
    CommandObj.new.get_options
        (CommandObj.new.add_option (CommandClass.mk [])
          (derivePositional "name")).2 =
      [] ++ [derivePositional "name"] ∧
    derivePositional "name" ∈ CommandObj.new.get_options
      (CommandObj.new.add_option (CommandClass.mk [])
        (derivePositional "name")).2) :=
  ⟨⟨rfl, rfl⟩,
    option_list_shared_class_state (CommandClass.mk [])
      CommandObj.new CommandObj.new (derivePositional "name") rfl rfl⟩

/-- Witness for C6: registering `migrate` then `upgrade` under the fresh
namespace `db` of a registry holding only `runserver` yields exactly one
`db` entry, a sub-Manager with exactly those two commands. -/
theorem addCommand_namespace_groups_witness :
    lookupDict "db" [("runserver", CmdEntry.cmd 0)] = Option.none ∧
    ("migrate" : String) ≠ "upgrade" ∧
    (∃ reg1 reg2,
      addCommand [("runserver", CmdEntry.cmd 0)] "migrate"
        (CmdEntry.cmd 7) (some "db") = some reg1 ∧
      addCommand reg1 "upgrade" (CmdEntry.cmd 8) (some "db") =
        some reg2 ∧
      lookupDict "db" reg2 =
        some (CmdEntry.mgr [("migrate", CmdEntry.cmd 7),
          ("upgrade", CmdEntry.cmd 8)]) ∧
      (reg2.map Prod.fst).count "db" = 1 ∧
      ∀ k, k ≠ "db" → lookupDict k reg2 =
        lookupDict k [("runserver", CmdEntry.cmd 0)]) :=
  ⟨rfl, by decide,
    addCommand_namespace_groups [("runserver", CmdEntry.cmd 0)]
      "db" "migrate" "upgrade" 7 8 rfl (by decide)⟩

end FlaskScript
